import Mathlib

/-!
Shallow embedding of the trinity-wallet storage layer (the Realm models in
the repository: Account, Node, Wallet, plus purge / initialise /
reinitialise).  Stored state is a `Store` record holding the three object
tables in insertion order; `realm.write` is the `realmWrite` combinator:
the body either succeeds (all its writes commit) or raises (every write is
discarded and the error propagates).  Records are plain structures; the
schema file itself is not part of the sources, so the field lists are taken
from what the model code reads and writes, and sub-record shapes are
modelled from the spec where noted.
-/

namespace Trinity

/-- Errors surfaced by the storage layer: a duplicate-primary-key create,
and the runtime type error raised when an absent record is dereferenced. -/
inductive Err where
  | duplicateKey
  | typeError
  deriving DecidableEq

/-- Modelled from the spec: the Address sub-record (address identifier plus
balance metadata); the schema file declaring it is not among the sources. -/
structure AddressData where
  address : String
  balance : Int
  deriving DecidableEq

/-- Modelled from the spec: the Transaction sub-record (hash plus
status/timestamp fields); the schema file declaring it is not among the
sources. -/
structure TransactionData where
  hash : String
  timestamp : Int
  deriving DecidableEq

/-- An Account record: primary key is the account name; it carries address
data and transactions. -/
structure Account where
  name : String
  addressData : List AddressData
  transactions : List TransactionData
  deriving DecidableEq

/-- A Node record: primary key is the url; `custom` marks user-added nodes
and `pow` is the proof-of-work capability flag. -/
structure Node where
  url : String
  custom : Bool
  pow : Bool
  deriving DecidableEq

/-- The embedded wallet settings sub-record.  The fields are the ones the
model code assigns through `Wallet.latestSettings`; the notification map is
an association list from notification type to enabled flag. -/
structure WalletSettingsData where
  locale : String
  themeName : String
  mode : String
  language : String
  node : String
  currency : String
  conversionRate : Int
  availableCurrencies : List String
  remotePoW : Bool
  autoPromotion : Bool
  autoNodeSwitching : Bool
  lockScreenTimeout : Int
  hasRandomizedNode : Bool
  is2FAEnabled : Bool
  isFingerprintEnabled : Bool
  buildNumber : Int
  version : String
  acceptedTerms : Bool
  acceptedPrivacy : Bool
  hideEmptyTransactions : Bool
  completedForcedPasswordUpdate : Bool
  completedByteTritSweep : Bool
  isTrayEnabled : Bool
  notifications : List (String × Bool)
  deriving DecidableEq

/-- A Wallet row: primary key is the integer schema version; it embeds the
settings sub-record and the ordered error log. -/
structure WalletRow where
  version : Nat
  settings : WalletSettingsData
  errorLog : List String
  onboardingComplete : Bool
  deriving DecidableEq

/-- The stored state: the three object tables, each in insertion order
(matching the order of the corresponding realm object collections). -/
structure Store where
  accounts : List Account
  nodes : List Node
  wallets : List WalletRow
  deriving DecidableEq

/-- The outcome of a storage operation: the committed state, the error it
raised (if any), and how many write scopes it opened. -/
structure WriteOutcome where
  state : Store
  error : Option Err
  scopes : Nat
  deriving DecidableEq

/-- The transaction executor, mirroring `realm.write(fn)`: the body runs
against the current state; if it finishes, its writes commit; if it raises,
every write inside the scope is discarded (the pre-scope state is kept) and
the error propagates unchanged. -/
def realmWrite (s : Store) (body : Store → Except Err Store) : WriteOutcome :=
  match body s with
  | .ok s1 => ⟨s1, none, 1⟩
  | .error e => ⟨s, some e, 1⟩

/-- The schema version constant of the storage module. -/
def SCHEMA_VERSION : Nat := 0

/-- Primitive `realm.create` for an Account without the update flag: raises
`duplicateKey` when the primary key (the name) is already present, else
appends the record. -/
def realmCreateAccount (a : Account) (s : Store) : Except Err Store :=
  if s.accounts.any (·.name = a.name) then .error .duplicateKey
  else .ok { s with accounts := s.accounts ++ [a] }

/-- `Account.getObjectForId`: `realm.objectForPrimaryKey` on the Account
table, looking the record up by name. -/
def Account.getObjectForId (id : String) (s : Store) : Option Account :=
  s.accounts.find? (·.name = id)

/-- `Account.create(data)`: one write scope around a plain create. -/
def Account.create (a : Account) (s : Store) : WriteOutcome :=
  realmWrite s (realmCreateAccount a)

/-- `Account.migrate(from, to)`: reads the record at `from`, then inside one
write scope creates a record with the same fields under the name `to`
(a plain create, so a colliding name raises `duplicateKey`) and deletes the
old record.  When `from` is absent, the body dereferences an undefined
record, which raises inside the scope; the scope rolls back either way. -/
def Account.migrate (fr dst : String) (s : Store) : WriteOutcome :=
  match Account.getObjectForId fr s with
  | none => realmWrite s (fun _ => .error .typeError)
  | some acc =>
      realmWrite s (fun s0 =>
        match realmCreateAccount { acc with name := dst } s0 with
        | .error e => .error e
        | .ok s1 => .ok { s1 with accounts := s1.accounts.eraseP (·.name = acc.name) })

/-- `Node.getObjectForId`: `realm.objectForPrimaryKey` on the Node table,
looking the record up by url. -/
def Node.getObjectForId (id : String) (s : Store) : Option Node :=
  s.nodes.find? (·.url = id)

/-- Primitive `realm.create` for a Node without the update flag: raises
`duplicateKey` when the url is already present, else appends the record. -/
def realmCreateNode (n : Node) (s : Store) : Except Err Store :=
  if s.nodes.any (·.url = n.url) then .error .duplicateKey
  else .ok { s with nodes := s.nodes ++ [n] }

/-- Primitive `realm.create` for a Node with the update flag set (upsert):
when the url is present the record with that primary key is replaced in
place, else the record is appended.  Primary keys are unique in the store,
so the replacement touches exactly the one record with that url. -/
def realmUpsertNode (n : Node) (s : Store) : Store :=
  if s.nodes.any (·.url = n.url) then
    { s with nodes := s.nodes.map (fun m => if m.url = n.url then n else m) }
  else { s with nodes := s.nodes ++ [n] }

/-- `Node.addCustomNode(url, pow)`: one write scope around a plain create of
`{ url, custom: true, pow }` — the update flag is not passed. -/
def Node.addCustomNode (url : String) (pw : Bool) (s : Store) : WriteOutcome :=
  realmWrite s (realmCreateNode ⟨url, true, pw⟩)

/-- The loop inside the `Node.addNodes` write scope: for each input node,
if its url is among the urls snapshotted before the scope began, create
with the update flag (replace in place); else a plain create, which raises
on a url already present in the evolving state. -/
def addNodesLoop (existingUrls : List String) : List Node → Store → Except Err Store
  | [], s => .ok s
  | n :: rest, s =>
      if existingUrls.contains n.url then
        addNodesLoop existingUrls rest (realmUpsertNode n s)
      else
        match realmCreateNode n s with
        | .error e => .error e
        | .ok s1 => addNodesLoop existingUrls rest s1

/-- `Node.addNodes(nodes)`: when the input list is empty no write scope is
opened and the state is untouched; otherwise the existing urls are read
from the pre-scope state and the whole batch runs in one write scope. -/
def Node.addNodes (nodes : List Node) (s : Store) : WriteOutcome :=
  if nodes.length = 0 then ⟨s, none, 0⟩
  else realmWrite s (addNodesLoop (s.nodes.map (·.url)) nodes)

/-- `Wallet.version`: the current schema version constant. -/
def Wallet.version : Nat := SCHEMA_VERSION

/-- `Wallet.getObjectForId`: `realm.objectForPrimaryKey` on the Wallet
table, looking the row up by schema version. -/
def Wallet.getObjectForId (id : Nat) (s : Store) : Option WalletRow :=
  s.wallets.find? (·.version = id)

/-- `Wallet.latestData`: the row for the current schema version, when
present. -/
def Wallet.latestData (s : Store) : Option WalletRow :=
  Wallet.getObjectForId Wallet.version s

/-- `Wallet.latestSettings`: dereferences `.settings` on the row for the
current schema version; when that row is absent the dereference raises a
type error. -/
def Wallet.latestSettings (s : Store) : Except Err WalletSettingsData :=
  match Wallet.latestData s with
  | none => .error .typeError
  | some w => .ok w.settings

/-- Shared shape of the settings field setters: one write scope whose body
assigns through `Wallet.latestSettings`; when the current-version row is
absent the dereference raises inside the scope, else exactly that row has
its settings rewritten by `f` (primary keys are unique, so the map touches
one row). -/
def Wallet.withLatestSettings (f : WalletSettingsData → WalletSettingsData)
    (s : Store) : WriteOutcome :=
  realmWrite s (fun s0 =>
    match Wallet.latestData s0 with
    | none => .error .typeError
    | some _ => .ok { s0 with wallets := s0.wallets.map (fun r =>
        if r.version = Wallet.version then { r with settings := f r.settings } else r) })

/-- Shared shape of the data-record setters: like
`Wallet.withLatestSettings` but rewriting the whole row through
`Wallet.latestData`. -/
def Wallet.withLatestData (f : WalletRow → WalletRow) (s : Store) : WriteOutcome :=
  realmWrite s (fun s0 =>
    match Wallet.latestData s0 with
    | none => .error .typeError
    | some _ => .ok { s0 with wallets := s0.wallets.map (fun r =>
        if r.version = Wallet.version then f r else r) })

/-- `Wallet.updateLocale(payload)`: assigns `latestSettings.locale`. -/
def Wallet.updateLocale (payload : String) (s : Store) : WriteOutcome :=
  Wallet.withLatestSettings (fun st => { st with locale := payload }) s

/-- `Wallet.updateTheme(payload)`: assigns `latestSettings.themeName`. -/
def Wallet.updateTheme (payload : String) (s : Store) : WriteOutcome :=
  Wallet.withLatestSettings (fun st => { st with themeName := payload }) s

/-- `Wallet.toggleEmptyTransactionsDisplay()`: negates
`latestSettings.hideEmptyTransactions`. -/
def Wallet.toggleEmptyTransactionsDisplay (s : Store) : WriteOutcome :=
  Wallet.withLatestSettings
    (fun st => { st with hideEmptyTransactions := !st.hideEmptyTransactions }) s

/-- `Wallet.updateErrorLog(payload)`: pushes onto `latestData.errorLog`. -/
def Wallet.updateErrorLog (payload : String) (s : Store) : WriteOutcome :=
  Wallet.withLatestData (fun w => { w with errorLog := w.errorLog ++ [payload] }) s

/-- `Wallet.clearErrorLog()`: assigns `latestData.errorLog = []`. -/
def Wallet.clearErrorLog (s : Store) : WriteOutcome :=
  Wallet.withLatestData (fun w => { w with errorLog := [] }) s

/-- Modelled from the spec: the settings value a freshly created Wallet row
carries.  The source creates the row as `{ version, settings:
{ notifications: \x7b\x7d } }`, the remaining fields taking the defaults of
the schema file, which is not among the sources; the spec says the row is
created with empty settings and an empty notification map. -/
def emptySettings : WalletSettingsData where
  locale := ""
  themeName := ""
  mode := ""
  language := ""
  node := ""
  currency := ""
  conversionRate := 0
  availableCurrencies := []
  remotePoW := false
  autoPromotion := false
  autoNodeSwitching := false
  lockScreenTimeout := 0
  hasRandomizedNode := false
  is2FAEnabled := false
  isFingerprintEnabled := false
  buildNumber := 0
  version := ""
  acceptedTerms := false
  acceptedPrivacy := false
  hideEmptyTransactions := false
  completedForcedPasswordUpdate := false
  completedByteTritSweep := false
  isTrayEnabled := false
  notifications := []

/-- The Wallet row `createIfNotExists` creates: current schema version,
empty settings with an empty notification map, empty error log. -/
def freshWalletRow : WalletRow :=
  ⟨Wallet.version, emptySettings, [], false⟩

/-- Primitive `realm.create` for a Wallet row without the update flag. -/
def realmCreateWallet (w : WalletRow) (s : Store) : Except Err Store :=
  if s.wallets.any (·.version = w.version) then .error .duplicateKey
  else .ok { s with wallets := s.wallets ++ [w] }

/-- `Wallet.createIfNotExists()`: when the lookup of the current-version
row comes back empty, one write scope creates the fresh row; otherwise
nothing happens and no scope is opened. -/
def Wallet.createIfNotExists (s : Store) : WriteOutcome :=
  if (Wallet.getObjectForId Wallet.version s).isNone then
    realmWrite s (realmCreateWallet freshWalletRow)
  else ⟨s, none, 0⟩

/-- `purge()`: one write scope around `realm.deleteAll()`, which removes
every record of every entity kind. -/
def purge (s : Store) : WriteOutcome :=
  realmWrite s (fun _ => .ok ⟨[], [], []⟩)

/-- `initialise()`: ensures the Wallet singleton exists. -/
def initialise (s : Store) : WriteOutcome :=
  Wallet.createIfNotExists s

/-- `reinitialise()`: `purge()` strictly before `initialise()`; when purge
rejects, initialise never runs. -/
def reinitialise (s : Store) : WriteOutcome :=
  let r := purge s
  match r.error with
  | some _ => r
  | none =>
      let r2 := initialise r.state
      ⟨r2.state, r2.error, r.scopes + r2.scopes⟩

/-- The empty store. -/
def emptyStore : Store := ⟨[], [], []⟩

/-- The store holding exactly the freshly initialised Wallet singleton. -/
def demoWalletStore : Store := ⟨[], [], [freshWalletRow]⟩

/-- Fixture: a stored account named alice with nonempty address data and
transactions. -/
def demoAccount : Account := ⟨"alice", [⟨"addr", 7⟩], [⟨"h", 3⟩]⟩

/-- Fixture: a store holding exactly the account alice. -/
def demoAccStore : Store := ⟨[demoAccount], [], []⟩

/-- Fixture: a store holding exactly one node, a non-custom node at url a. -/
def demoNodeStore : Store := ⟨[], [⟨"a", false, true⟩], []⟩

/-- The last input node carrying a given url, if any: when a url appears
several times in an addNodes batch, later entries overwrite earlier ones. -/
def lastMatchFor (ns : List Node) (u : String) : Option Node :=
  (ns.filter (fun n => n.url = u)).getLast?

/-- The in-place part of an addNodes batch: every element of the base table
whose url is matched by an input node is replaced (at its position) by the
last such input node; unmatched elements stay as they are. -/
def upsertAllInto (ns : List Node) (b : List Node) : List Node :=
  b.map (fun m => (lastMatchFor ns m.url).getD m)

/-- The input nodes of an addNodes batch whose url is not among the
snapshotted existing urls: these are inserted fresh, in input order. -/
def freshNodes (ns : List Node) (exUrls : List String) : List Node :=
  ns.filter (fun n => !(exUrls.contains n.url))

/-- Fixture: the store produced by adding the custom node a and the
non-custom node b to the empty store. -/
def scenarioStore : Store :=
  (Node.addNodes [⟨"a", true, true⟩, ⟨"b", false, true⟩] emptyStore).state

/-! Theorems settling the claims. -/

/-- C9: `Node.addNodes` applied to an empty list is a complete no-op: it
opens no write scope (the scope counter of the outcome is zero) and leaves
the entire store state unchanged, raising no error. -/
theorem addNodes_nil_noop (s : Store) : Node.addNodes [] s = ⟨s, none, 0⟩ := rfl

/-- C6: `reinitialise()` — `purge()` sequenced strictly before
`initialise()` — results, from every store state, in zero accounts, zero
nodes, and exactly the one freshly created Wallet singleton row for the
current schema version, with no error. -/
theorem reinitialise_resets (s : Store) :
    (reinitialise s).state.accounts = []
    ∧ (reinitialise s).state.nodes = []
    ∧ (reinitialise s).state.wallets = [freshWalletRow]
    ∧ (reinitialise s).error = none := by
  refine ⟨rfl, rfl, rfl, rfl⟩

/-- C2: atomicity of a multi-write batch.  Whenever the function executed
inside the `Node.addNodes` write scope raises partway through its writes,
the committed state is identical to the pre-scope snapshot — no write in
the scope survives — and the triggering error propagates unchanged to the
caller. -/
theorem addNodes_rollback_on_error (s : Store) (ns : List Node) (e : Err)
    (h : addNodesLoop (s.nodes.map (·.url)) ns s = .error e) :
    (Node.addNodes ns s).state = s ∧ (Node.addNodes ns s).error = some e := by
  cases ns with
  | nil => simp [addNodesLoop] at h
  | cons n rest =>
      unfold Node.addNodes
      simp only [List.length_cons]
      rw [if_neg (by simp)]
      unfold realmWrite
      rw [h]
      exact ⟨rfl, rfl⟩

/-- C2 witness: a concrete two-write batch whose second write raises (the
same fresh url twice makes the second plain create collide); one write did
happen inside the scope before the failure, yet the committed state is the
empty pre-scope snapshot and the duplicate-key error surfaces. -/
theorem addNodes_rollback_on_error_witness :
    addNodesLoop [] [⟨"a", true, true⟩, ⟨"a", false, true⟩] emptyStore
      = .error .duplicateKey
    ∧ ((Node.addNodes [⟨"a", true, true⟩, ⟨"a", false, true⟩] emptyStore).state = emptyStore
      ∧ (Node.addNodes [⟨"a", true, true⟩, ⟨"a", false, true⟩] emptyStore).error
          = some .duplicateKey) :=
  ⟨rfl, addNodes_rollback_on_error emptyStore _ _ rfl⟩

/-- C7: for a record whose primary key is not yet present, `create`
followed by `getById` with the same key returns a record equal to the
input; and `getById` of a key absent from the resulting table returns
absence (an empty option, never an error). -/
theorem create_getById_roundtrip (a : Account) (s : Store) (k : String)
    (h : Account.getObjectForId a.name s = none)
    (hk : ∀ b ∈ (Account.create a s).state.accounts, b.name ≠ k) :
    (Account.create a s).error = none
    ∧ Account.getObjectForId a.name (Account.create a s).state = some a
    ∧ Account.getObjectForId k (Account.create a s).state = none := by
  have hnone : ∀ b ∈ s.accounts, ¬(b.name = a.name) := by
    intro b hb
    have := List.find?_eq_none.mp h b hb
    simpa using this
  have hany : s.accounts.any (·.name = a.name) = false := by
    rw [Bool.eq_false_iff]
    intro hc
    obtain ⟨x, hx, hpx⟩ := List.any_eq_true.mp hc
    exact hnone x hx (by simpa using hpx)
  have hcreate : Account.create a s
      = ⟨{ s with accounts := s.accounts ++ [a] }, none, 1⟩ := by
    simp [Account.create, realmWrite, realmCreateAccount, hany]
  refine ⟨by rw [hcreate], ?_, ?_⟩
  · rw [hcreate]
    unfold Account.getObjectForId at h ⊢
    rw [List.find?_append, h, Option.none_or]
    exact List.find?_cons_of_pos _ (by simp)
  · rw [hcreate] at hk ⊢
    unfold Account.getObjectForId
    rw [List.find?_eq_none]
    intro x hx
    simpa using hk x hx

/-- C7 witness: on the empty store, creating the account alice and reading
it back returns the input record, and reading the absent key bob returns
absence. -/
theorem create_getById_roundtrip_witness :
    Account.getObjectForId "alice" emptyStore = none
    ∧ ((Account.create ⟨"alice", [⟨"addr", 5⟩], [⟨"h", 1⟩]⟩ emptyStore).error = none
      ∧ Account.getObjectForId "alice"
          (Account.create ⟨"alice", [⟨"addr", 5⟩], [⟨"h", 1⟩]⟩ emptyStore).state
          = some ⟨"alice", [⟨"addr", 5⟩], [⟨"h", 1⟩]⟩
      ∧ Account.getObjectForId "bob"
          (Account.create ⟨"alice", [⟨"addr", 5⟩], [⟨"h", 1⟩]⟩ emptyStore).state = none) :=
  ⟨rfl, create_getById_roundtrip ⟨"alice", [⟨"addr", 5⟩], [⟨"h", 1⟩]⟩ emptyStore "bob"
    rfl (by decide)⟩

/-- C10: when the Wallet row for the current schema version is absent,
`latestSettings` and every field-level setter raise the type error coming
from dereferencing the absent record: the store is left unchanged (in
particular the row is not created) and nothing silently no-ops. -/
theorem wallet_ops_require_row (s : Store) (p q : String)
    (h : Wallet.getObjectForId Wallet.version s = none) :
    Wallet.latestSettings s = .error .typeError
    ∧ Wallet.updateLocale p s = ⟨s, some .typeError, 1⟩
    ∧ Wallet.updateTheme q s = ⟨s, some .typeError, 1⟩
    ∧ Wallet.toggleEmptyTransactionsDisplay s = ⟨s, some .typeError, 1⟩
    ∧ Wallet.updateErrorLog p s = ⟨s, some .typeError, 1⟩
    ∧ Wallet.clearErrorLog s = ⟨s, some .typeError, 1⟩
    ∧ Wallet.getObjectForId Wallet.version (Wallet.updateLocale p s).state = none := by
  have hd : Wallet.latestData s = none := h
  refine ⟨?_, ?_, ?_, ?_, ?_, ?_, ?_⟩ <;>
    simp [Wallet.latestSettings, Wallet.updateLocale, Wallet.updateTheme,
      Wallet.toggleEmptyTransactionsDisplay, Wallet.updateErrorLog, Wallet.clearErrorLog,
      Wallet.withLatestSettings, Wallet.withLatestData, realmWrite, hd, h]

/-- C10 witness: on the empty store (row never created), the accessor and
the setters all surface the type error and create nothing. -/
theorem wallet_ops_require_row_witness :
    Wallet.getObjectForId Wallet.version emptyStore = none
    ∧ (Wallet.latestSettings emptyStore = .error .typeError
      ∧ Wallet.updateLocale "en" emptyStore = ⟨emptyStore, some .typeError, 1⟩
      ∧ Wallet.updateTheme "Dark" emptyStore = ⟨emptyStore, some .typeError, 1⟩
      ∧ Wallet.toggleEmptyTransactionsDisplay emptyStore = ⟨emptyStore, some .typeError, 1⟩
      ∧ Wallet.updateErrorLog "err" emptyStore = ⟨emptyStore, some .typeError, 1⟩
      ∧ Wallet.clearErrorLog emptyStore = ⟨emptyStore, some .typeError, 1⟩
      ∧ Wallet.getObjectForId Wallet.version
          (Wallet.updateLocale "en" emptyStore).state = none) :=
  ⟨rfl, wallet_ops_require_row emptyStore "en" "Dark" rfl⟩

/-- C8: with the singleton row present, each field-level setter is a single
write scope that rewrites exactly its designated field of the
settings/data sub-record of the current-version row, applies the value
as-is for every input value, raises nothing, and leaves the accounts and
nodes tables and every other Wallet field unchanged. -/
theorem wallet_setters_frame (s : Store) (w : WalletRow) (loc th er : String)
    (h : Wallet.getObjectForId Wallet.version s = some w) :
    Wallet.updateLocale loc s
      = ⟨{ s with wallets := s.wallets.map (fun r => if r.version = Wallet.version
            then { r with settings := { r.settings with locale := loc } } else r) },
          none, 1⟩
    ∧ Wallet.updateTheme th s
      = ⟨{ s with wallets := s.wallets.map (fun r => if r.version = Wallet.version
            then { r with settings := { r.settings with themeName := th } } else r) },
          none, 1⟩
    ∧ Wallet.toggleEmptyTransactionsDisplay s
      = ⟨{ s with wallets := s.wallets.map (fun r => if r.version = Wallet.version
            then { r with settings := { r.settings with
              hideEmptyTransactions := !r.settings.hideEmptyTransactions } } else r) },
          none, 1⟩
    ∧ Wallet.updateErrorLog er s
      = ⟨{ s with wallets := s.wallets.map (fun r => if r.version = Wallet.version
            then { r with errorLog := r.errorLog ++ [er] } else r) }, none, 1⟩
    ∧ Wallet.clearErrorLog s
      = ⟨{ s with wallets := s.wallets.map (fun r => if r.version = Wallet.version
            then { r with errorLog := [] } else r) }, none, 1⟩ := by
  have hd : Wallet.latestData s = some w := h
  refine ⟨?_, ?_, ?_, ?_, ?_⟩ <;>
    simp [Wallet.updateLocale, Wallet.updateTheme, Wallet.toggleEmptyTransactionsDisplay,
      Wallet.updateErrorLog, Wallet.clearErrorLog, Wallet.withLatestSettings,
      Wallet.withLatestData, realmWrite, hd]

/-- C8 witness: on a store holding the freshly created singleton row, each
setter commits, rewrites exactly its designated field of that row, and
leaves everything else as it was. -/
theorem wallet_setters_frame_witness :
    Wallet.getObjectForId Wallet.version demoWalletStore = some freshWalletRow
    ∧ (Wallet.updateLocale "de" demoWalletStore
        = ⟨⟨[], [], [{ freshWalletRow with
            settings := { emptySettings with locale := "de" } }]⟩, none, 1⟩
      ∧ Wallet.updateTheme "Ionic" demoWalletStore
        = ⟨⟨[], [], [{ freshWalletRow with
            settings := { emptySettings with themeName := "Ionic" } }]⟩, none, 1⟩
      ∧ Wallet.toggleEmptyTransactionsDisplay demoWalletStore
        = ⟨⟨[], [], [{ freshWalletRow with
            settings := { emptySettings with hideEmptyTransactions := true } }]⟩, none, 1⟩
      ∧ Wallet.updateErrorLog "boom" demoWalletStore
        = ⟨⟨[], [], [{ freshWalletRow with errorLog := ["boom"] }]⟩, none, 1⟩
      ∧ Wallet.clearErrorLog demoWalletStore
        = ⟨⟨[], [], [{ freshWalletRow with errorLog := [] }]⟩, none, 1⟩) := by
  have hmain :=
    wallet_setters_frame demoWalletStore freshWalletRow "de" "Ionic" "boom" rfl
  exact ⟨rfl, by rw [hmain.1]; decide, by rw [hmain.2.1]; decide,
    by rw [hmain.2.2.1]; decide, by rw [hmain.2.2.2.1]; decide,
    by rw [hmain.2.2.2.2]; decide⟩

/-- Helper: in a table whose keys are pairwise distinct, at most one record
carries any given key. -/
theorem countP_key_le_one {α β : Type} [DecidableEq β] (f : α → β) (l : List α)
    (h : (l.map f).Nodup) (k : β) : l.countP (fun x => f x = k) ≤ 1 := by
  induction l with
  | nil => simp
  | cons a t ih =>
      rw [List.map_cons, List.nodup_cons] at h
      rw [List.countP_cons]
      by_cases hak : f a = k
      · have ht : t.countP (fun x => f x = k) = 0 := by
          rw [List.countP_eq_zero]
          intro b hb
          simp only [decide_eq_true_eq]
          intro hbk
          exact h.1 (hak ▸ hbk ▸ List.mem_map_of_mem f hb)
        simp [ht, hak]
      · simpa [hak] using ih h.2

/-- Helper: a record found by key witnesses a positive key count. -/
theorem countP_key_pos {α β : Type} [DecidableEq β] (f : α → β) (l : List α)
    (a : α) (ha : a ∈ l) (k : β) (hk : f a = k) :
    0 < l.countP (fun x => f x = k) :=
  List.countP_pos_iff.mpr ⟨a, ha, by simp [hk]⟩

/-- C5: `Wallet.createIfNotExists()` is idempotent: from any store state
(keys are unique, as the store enforces), calling it twice leaves exactly
one Wallet row for the current schema version; and when the
current-version row is absent the first call appends the fresh row, whose
settings are the empty settings with an empty notification map. -/
theorem createIfNotExists_idempotent (s : Store)
    (h : (s.wallets.map (·.version)).Nodup) :
    ((Wallet.createIfNotExists (Wallet.createIfNotExists s).state).state.wallets.countP
        (fun r => r.version = Wallet.version) = 1)
    ∧ (Wallet.getObjectForId Wallet.version s = none →
        (Wallet.createIfNotExists s).state.wallets = s.wallets ++ [freshWalletRow]
        ∧ freshWalletRow.settings = emptySettings
        ∧ freshWalletRow.settings.notifications = []) := by
  cases hx : Wallet.getObjectForId Wallet.version s with
  | none =>
      have hany : s.wallets.any (·.version = freshWalletRow.version) = false := by
        rw [Bool.eq_false_iff]
        intro hc
        obtain ⟨x, hmem, hpx⟩ := List.any_eq_true.mp hc
        exact absurd (List.find?_eq_none.mp hx x hmem) (by simp_all [freshWalletRow])
      have hone : Wallet.createIfNotExists s
          = ⟨{ s with wallets := s.wallets ++ [freshWalletRow] }, none, 1⟩ := by
        unfold Wallet.createIfNotExists
        rw [hx]
        unfold realmWrite realmCreateWallet
        rw [hany]
        rfl
      have hcount0 : s.wallets.countP (fun r => r.version = Wallet.version) = 0 := by
        rw [List.countP_eq_zero]
        intro b hb
        simpa using List.find?_eq_none.mp hx b hb
      have hfind2 : Wallet.getObjectForId Wallet.version
          { s with wallets := s.wallets ++ [freshWalletRow] } = some freshWalletRow := by
        unfold Wallet.getObjectForId at hx ⊢
        rw [List.find?_append, hx, Option.none_or]
        exact List.find?_cons_of_pos _ (by simp [freshWalletRow, Wallet.version])
      constructor
      · have hsecond : Wallet.createIfNotExists
              { s with wallets := s.wallets ++ [freshWalletRow] }
            = ⟨{ s with wallets := s.wallets ++ [freshWalletRow] }, none, 0⟩ := by
          unfold Wallet.createIfNotExists
          rw [hfind2]
          rfl
        rw [hone]
        show (Wallet.createIfNotExists
          { s with wallets := s.wallets ++ [freshWalletRow] }).state.wallets.countP _ = 1
        rw [hsecond]
        show (s.wallets ++ [freshWalletRow]).countP _ = 1
        rw [List.countP_append, hcount0]
        decide
      · intro _
        exact ⟨by rw [hone], rfl, rfl⟩
  | some w =>
      have hfirst : Wallet.createIfNotExists s = ⟨s, none, 0⟩ := by
        unfold Wallet.createIfNotExists
        rw [hx]
        rfl
      have hw : w ∈ s.wallets := List.mem_of_find?_eq_some hx
      have hwv : w.version = Wallet.version := by simpa using List.find?_some hx
      constructor
      · rw [hfirst, hfirst]
        show s.wallets.countP (fun r => r.version = Wallet.version) = 1
        have h1 : s.wallets.countP (fun r => r.version = Wallet.version) ≤ 1 :=
          countP_key_le_one (fun x => x.version) s.wallets h Wallet.version
        have h2 : 0 < s.wallets.countP (fun r => r.version = Wallet.version) :=
          countP_key_pos (fun x => x.version) s.wallets w hw Wallet.version hwv
        exact Nat.le_antisymm h1 h2
      · intro habs
        exact Option.noConfusion habs

/-- C5 witness: on the empty store the first call creates the singleton
row with empty settings and an empty notification map, and a second call
leaves exactly one row for the current version. -/
theorem createIfNotExists_idempotent_witness :
    (emptyStore.wallets.map (·.version)).Nodup
    ∧ (((Wallet.createIfNotExists (Wallet.createIfNotExists emptyStore).state).state.wallets.countP
          (fun r => r.version = Wallet.version) = 1)
      ∧ (Wallet.getObjectForId Wallet.version emptyStore = none →
          (Wallet.createIfNotExists emptyStore).state.wallets
            = emptyStore.wallets ++ [freshWalletRow]
          ∧ freshWalletRow.settings = emptySettings
          ∧ freshWalletRow.settings.notifications = [])) :=
  ⟨by decide, createIfNotExists_idempotent emptyStore (by decide)⟩

/-- Helper: after erasing the first record with a given name from a table
of pairwise-distinct names, no record with that name can be found. -/
theorem eraseP_name_find?_none (l : List Account) (k : String)
    (h : (l.map (·.name)).Nodup) :
    (l.eraseP (·.name = k)).find? (·.name = k) = none := by
  induction l with
  | nil => rfl
  | cons a t ih =>
      rw [List.map_cons, List.nodup_cons] at h
      by_cases hak : a.name = k
      · rw [List.eraseP_cons, show (decide (a.name = k)) = true by simp [hak], cond_true,
          List.find?_eq_none]
        intro x hx
        simp only [decide_eq_true_eq]
        intro hxk
        exact h.1 (hak ▸ hxk ▸ List.mem_map_of_mem (·.name) hx)
      · rw [List.eraseP_cons, show (decide (a.name = k)) = false by simp [hak], cond_false]
        rw [List.find?_cons_of_neg _ (by simp [hak])]
        exact ih h.2

/-- C1 counterexample: the claim quantifies over every target name, but
migrating the stored account alice onto the name alice itself makes the
create inside the scope collide with the existing primary key, the scope
rolls back, and afterwards getById of the source name is still present —
contradicting the claimed post-condition that it is absent. -/
theorem migrate_same_name_counterexample :
    (Account.migrate "alice" "alice" demoAccStore).error = some .duplicateKey
    ∧ (Account.migrate "alice" "alice" demoAccStore).state = demoAccStore
    ∧ Account.getObjectForId "alice" (Account.migrate "alice" "alice" demoAccStore).state
        = some demoAccount :=
  ⟨rfl, rfl, rfl⟩

/-- C1 (amended): for every stored account named `fr` and every name `dst`
at which no account is stored, migrate commits: the record at `dst`
carries all fields of the old record except the name, the record at `fr`
is deleted, and afterwards getById of `fr` is absent while getById of
`dst` has addressData and transactions identical to the pre-migration
record. -/
theorem migrate_roundtrip (s : Store) (acc : Account) (fr dst : String)
    (hnd : (s.accounts.map (·.name)).Nodup)
    (hfr : Account.getObjectForId fr s = some acc)
    (hdst : Account.getObjectForId dst s = none) :
    (Account.migrate fr dst s).error = none
    ∧ Account.getObjectForId fr (Account.migrate fr dst s).state = none
    ∧ Account.getObjectForId dst (Account.migrate fr dst s).state
        = some { acc with name := dst } := by
  have hname : acc.name = fr := by simpa using List.find?_some hfr
  have hne : dst ≠ fr := by
    intro hdf
    rw [hdf, hfr] at hdst
    exact Option.noConfusion hdst
  have hanydst : s.accounts.any (·.name = dst) = false := by
    rw [Bool.eq_false_iff]
    intro hc
    obtain ⟨x, hmem, hpx⟩ := List.any_eq_true.mp hc
    exact absurd (List.find?_eq_none.mp hdst x hmem) (by simp_all)
  have hmig : Account.migrate fr dst s
      = ⟨{ s with
            accounts := (s.accounts ++ [{ acc with name := dst }]).eraseP (·.name = acc.name) },
          none, 1⟩ := by
    unfold Account.migrate
    rw [hfr]
    unfold realmWrite realmCreateAccount
    dsimp only
    rw [hanydst]
    rfl
  have herase : (s.accounts ++ [{ acc with name := dst }]).eraseP (·.name = acc.name)
      = s.accounts.eraseP (·.name = fr) ++ [{ acc with name := dst }] := by
    rw [hname]
    exact List.eraseP_append_left (a := acc) (by simp [hname]) _
      (List.mem_of_find?_eq_some hfr)
  refine ⟨by rw [hmig], ?_, ?_⟩
  · rw [hmig]
    unfold Account.getObjectForId
    dsimp only
    rw [herase, List.find?_append, eraseP_name_find?_none s.accounts fr hnd,
      Option.none_or]
    exact List.find?_cons_of_neg _ (by simp [hne])
  · rw [hmig]
    unfold Account.getObjectForId
    dsimp only
    rw [herase, List.find?_append]
    have hpre : (s.accounts.eraseP (·.name = fr)).find? (·.name = dst) = none := by
      rw [List.find?_eq_none]
      intro x hx
      have hmem : x ∈ s.accounts := (List.eraseP_sublist s.accounts).mem hx
      simpa using List.find?_eq_none.mp hdst x hmem
    rw [hpre, Option.none_or]
    exact List.find?_cons_of_pos _ (by simp)

/-- C1 witness: migrating the stored account alice onto the fresh name bob
commits, removes alice, and stores under bob the same address data and
transactions. -/
theorem migrate_roundtrip_witness :
    (demoAccStore.accounts.map (·.name)).Nodup
    ∧ Account.getObjectForId "alice" demoAccStore = some demoAccount
    ∧ Account.getObjectForId "bob" demoAccStore = none
    ∧ ((Account.migrate "alice" "bob" demoAccStore).error = none
      ∧ Account.getObjectForId "alice" (Account.migrate "alice" "bob" demoAccStore).state
          = none
      ∧ Account.getObjectForId "bob" (Account.migrate "alice" "bob" demoAccStore).state
          = some { demoAccount with name := "bob" }) :=
  ⟨by decide, rfl, rfl, migrate_roundtrip demoAccStore demoAccount "alice" "bob"
    (by decide) rfl rfl⟩

/-- C3 counterexample: with the url a already stored, addCustomNode does
not replace the existing fields in place — the plain create inside the
scope raises the duplicate-key error, the scope rolls back, and the stored
node keeps its old fields — contradicting the claimed upsert-rather-than-
failing behaviour. -/
theorem addCustomNode_existing_counterexample :
    (Node.addCustomNode "a" false demoNodeStore).error = some .duplicateKey
    ∧ (Node.addCustomNode "a" false demoNodeStore).state = demoNodeStore
    ∧ Node.getObjectForId "a" (Node.addCustomNode "a" false demoNodeStore).state
        = some ⟨"a", false, true⟩ :=
  ⟨rfl, rfl, rfl⟩

/-- C3 (amended): for every url already present among stored nodes,
addCustomNode fails with the duplicate-key error and leaves the store
unchanged — no duplicate node is ever created, so url uniqueness is
preserved, but the existing fields are not replaced. -/
theorem addCustomNode_existing_fails (s : Store) (u : String) (pw : Bool) (n : Node)
    (h : Node.getObjectForId u s = some n) :
    (Node.addCustomNode u pw s).error = some .duplicateKey
    ∧ (Node.addCustomNode u pw s).state = s := by
  have hmem : n ∈ s.nodes := List.mem_of_find?_eq_some h
  have hn : n.url = u := by simpa using List.find?_some h
  have hany : s.nodes.any (·.url = u) = true :=
    List.any_eq_true.mpr ⟨n, hmem, by simp [hn]⟩
  have hc : Node.addCustomNode u pw s = ⟨s, some .duplicateKey, 1⟩ := by
    unfold Node.addCustomNode realmWrite realmCreateNode
    rw [show (s.nodes.any (·.url = (⟨u, true, pw⟩ : Node).url)) = true from hany]
    rfl
  exact ⟨by rw [hc], by rw [hc]⟩

/-- C3 amended-claim witness: on the store with the non-custom node a,
addCustomNode over the same url raises the duplicate-key error and leaves
the store unchanged. -/
theorem addCustomNode_existing_fails_witness :
    Node.getObjectForId "a" demoNodeStore = some ⟨"a", false, true⟩
    ∧ ((Node.addCustomNode "a" true demoNodeStore).error = some .duplicateKey
      ∧ (Node.addCustomNode "a" true demoNodeStore).state = demoNodeStore) :=
  ⟨rfl, addCustomNode_existing_fails demoNodeStore "a" true ⟨"a", false, true⟩ rfl⟩

/-- Helper: the default of the last element of a cons shifts the default. -/
theorem getD_getLast?_cons {α : Type} (l : List α) (n m : α) :
    ((n :: l).getLast?).getD m = (l.getLast?).getD n := by
  cases l with
  | nil => rfl
  | cons b t =>
      rw [List.getLast?_cons_cons]
      cases hbt : (b :: t).getLast? with
      | none => simp at hbt
      | some x => rfl

/-- Helper: processing the head of a batch whose url is matched in the base
table is the same as replacing that url in the base table first and then
processing the tail. -/
theorem upsertAllInto_cons_existing (n : Node) (rest b : List Node) :
    upsertAllInto (n :: rest) b
      = upsertAllInto rest (b.map (fun m => if m.url = n.url then n else m)) := by
  unfold upsertAllInto
  rw [List.map_map]
  apply List.map_congr_left
  intro m _
  show (lastMatchFor (n :: rest) m.url).getD m = _
  by_cases hm : m.url = n.url
  · unfold lastMatchFor
    rw [List.filter_cons, if_pos (by simp [hm]), Function.comp_apply, if_pos hm]
    show ((n :: List.filter (fun x => x.url = m.url) rest).getLast?).getD m
        = ((List.filter (fun x => x.url = n.url) rest).getLast?).getD n
    rw [hm]
    exact getD_getLast?_cons _ _ _
  · unfold lastMatchFor
    rw [List.filter_cons,
      if_neg (by simp only [decide_eq_true_eq]; exact fun hc => hm hc.symm),
      Function.comp_apply, if_neg hm]

/-- Helper: a batch head whose url matches nothing in the base table leaves
the in-place part of the batch unchanged. -/
theorem upsertAllInto_cons_fresh (n : Node) (rest b : List Node)
    (h : ∀ m ∈ b, m.url ≠ n.url) :
    upsertAllInto (n :: rest) b = upsertAllInto rest b := by
  unfold upsertAllInto
  apply List.map_congr_left
  intro m hm
  unfold lastMatchFor
  rw [List.filter_cons,
    if_neg (by simp only [decide_eq_true_eq]; exact fun hc => h m hm hc.symm)]

/-- Helper: the loop inside the addNodes scope, run on a state whose node
table splits into a base segment carrying exactly the snapshotted urls and
an already-inserted fresh segment, commits every input: in-place
replacement on the base segment and fresh appends behind it. -/
theorem addNodesLoop_ok (exUrls : List String) (ns : List Node)
    (a : List Account) (wl : List WalletRow) :
    ∀ B F : List Node,
      B.map (·.url) = exUrls →
      (∀ m ∈ F, ¬ exUrls.contains m.url) →
      ((F ++ freshNodes ns exUrls).map (·.url)).Nodup →
      addNodesLoop exUrls ns ⟨a, B ++ F, wl⟩
        = .ok ⟨a, upsertAllInto ns B ++ (F ++ freshNodes ns exUrls), wl⟩ := by
  induction ns with
  | nil =>
      intro B F hB hF hnd
      unfold addNodesLoop upsertAllInto lastMatchFor freshNodes
      simp
  | cons n rest ih =>
      intro B F hB hF hnd
      by_cases hc : exUrls.contains n.url
      · have hmemB : ∃ m ∈ B, m.url = n.url := by
          have hmm : n.url ∈ B.map (·.url) := by rw [hB]; simpa using hc
          obtain ⟨m, hm, hmu⟩ := List.mem_map.mp hmm
          exact ⟨m, hm, hmu⟩
        have hFne : ∀ m ∈ F, m.url ≠ n.url := by
          intro m hm he
          exact hF m hm (by rw [he]; exact hc)
        have hfr : freshNodes (n :: rest) exUrls = freshNodes rest exUrls := by
          unfold freshNodes
          rw [List.filter_cons, if_neg (by rw [hc]; simp)]
        have hanyB : ((B ++ F).any (·.url = n.url)) = true := by
          obtain ⟨m0, hm0, hm0u⟩ := hmemB
          exact List.any_eq_true.mpr ⟨m0, List.mem_append_left F hm0, by simp [hm0u]⟩
        have hmapF : F.map (fun m => if m.url = n.url then n else m) = F := by
          rw [List.map_congr_left (fun m hm => if_neg (hFne m hm))]
          exact List.map_id F
        have hup : realmUpsertNode n ⟨a, B ++ F, wl⟩
            = ⟨a, B.map (fun m => if m.url = n.url then n else m) ++ F, wl⟩ := by
          unfold realmUpsertNode
          dsimp only
          rw [if_pos hanyB, List.map_append, hmapF]
        have hB2 : (B.map (fun m => if m.url = n.url then n else m)).map (·.url)
            = exUrls := by
          rw [List.map_map, ← hB]
          apply List.map_congr_left
          intro m _
          by_cases hm : m.url = n.url
          · simp [hm]
          · simp [hm]
        have hstep : addNodesLoop exUrls (n :: rest) ⟨a, B ++ F, wl⟩
            = addNodesLoop exUrls rest (realmUpsertNode n ⟨a, B ++ F, wl⟩) := by
          simp only [addNodesLoop]
          rw [if_pos hc]
        rw [hstep, hup, ih (B.map (fun m => if m.url = n.url then n else m)) F hB2 hF
          (by rw [hfr] at hnd; exact hnd), hfr, upsertAllInto_cons_existing]
      · have hBne : ∀ m ∈ B, m.url ≠ n.url := by
          intro m hm he
          have hmm : n.url ∈ exUrls := by
            rw [← hB]
            exact List.mem_map.mpr ⟨m, hm, he⟩
          exact hc (by simpa using hmm)
        have hcf : exUrls.contains n.url = false := Bool.eq_false_iff.mpr hc
        have hfr : freshNodes (n :: rest) exUrls = n :: freshNodes rest exUrls := by
          unfold freshNodes
          rw [List.filter_cons, if_pos (by rw [hcf]; rfl)]
        have hFne : ∀ m ∈ F, m.url ≠ n.url := by
          rw [hfr, List.map_append, List.map_cons, List.nodup_append] at hnd
          intro m hm he
          have h1 : m.url ∈ F.map (·.url) := List.mem_map.mpr ⟨m, hm, rfl⟩
          have h2 : m.url ∈ n.url :: (freshNodes rest exUrls).map (·.url) := by
            rw [he]; exact List.mem_cons_self _ _
          exact hnd.2.2 h1 h2
        have hcr : realmCreateNode n ⟨a, B ++ F, wl⟩
            = .ok ⟨a, B ++ (F ++ [n]), wl⟩ := by
          unfold realmCreateNode
          dsimp only
          rw [if_neg ?hno, ← List.append_assoc]
          case hno =>
            rw [Bool.not_eq_true, Bool.eq_false_iff]
            intro hany
            obtain ⟨m, hm, hmu⟩ := List.any_eq_true.mp hany
            rcases List.mem_append.mp hm with hmB | hmF
            · exact hBne m hmB (by simpa using hmu)
            · exact hFne m hmF (by simpa using hmu)
        have hstep : addNodesLoop exUrls (n :: rest) ⟨a, B ++ F, wl⟩
            = addNodesLoop exUrls rest ⟨a, B ++ (F ++ [n]), wl⟩ := by
          simp only [addNodesLoop]
          rw [if_neg hc, hcr]
        have hndshift : (((F ++ [n]) ++ freshNodes rest exUrls).map (·.url)).Nodup := by
          rw [List.append_assoc, List.singleton_append, ← hfr]
          exact hnd
        have hF2 : ∀ m ∈ F ++ [n], ¬ exUrls.contains m.url = true := by
          intro m hm
          rcases List.mem_append.mp hm with hmF | hmn
          · exact hF m hmF
          · rw [List.mem_singleton.mp hmn]; exact hc
        rw [hstep, ih B (F ++ [n]) hB hF2 hndshift, hfr,
          upsertAllInto_cons_fresh n rest B hBne, List.append_assoc,
          List.singleton_append]

/-- C4 counterexample: the claim quantifies over every input list, but a
batch repeating a url that is not yet stored makes the second plain create
inside the scope collide with the key the first one just inserted: the
whole batch rolls back with the duplicate-key error and the fresh nodes
are not inserted — contradicting the claimed behaviour. -/
theorem addNodes_duplicate_fresh_counterexample :
    (Node.addNodes [⟨"c", true, true⟩, ⟨"c", true, false⟩] emptyStore).error
        = some .duplicateKey
    ∧ (Node.addNodes [⟨"c", true, true⟩, ⟨"c", true, false⟩] emptyStore).state.nodes = [] :=
  ⟨rfl, rfl⟩

/-- C4 (amended): for every input list in which no url of a
not-yet-stored node occurs twice, addNodes commits in one scope: every
stored node whose url is matched by an input node is replaced in place by
the last matching input node, the inputs with unmatched urls are appended
fresh in input order, and the other tables are untouched. -/
theorem addNodes_upsert_spec (s : Store) (ns : List Node)
    (h : ((freshNodes ns (s.nodes.map (·.url))).map (·.url)).Nodup) :
    (Node.addNodes ns s).error = none
    ∧ (Node.addNodes ns s).state.nodes
        = upsertAllInto ns s.nodes ++ freshNodes ns (s.nodes.map (·.url))
    ∧ (Node.addNodes ns s).state.accounts = s.accounts
    ∧ (Node.addNodes ns s).state.wallets = s.wallets := by
  cases ns with
  | nil =>
      refine ⟨rfl, ?_, rfl, rfl⟩
      show s.nodes = upsertAllInto [] s.nodes ++ freshNodes [] (s.nodes.map (·.url))
      unfold upsertAllInto lastMatchFor freshNodes
      simp
  | cons n rest =>
      have hloop : addNodesLoop (s.nodes.map (·.url)) (n :: rest) s
          = .ok ⟨s.accounts, upsertAllInto (n :: rest) s.nodes
              ++ freshNodes (n :: rest) (s.nodes.map (·.url)), s.wallets⟩ := by
        have h0 := addNodesLoop_ok (s.nodes.map (·.url)) (n :: rest) s.accounts s.wallets
          s.nodes [] rfl (fun m hm => absurd hm (List.not_mem_nil m)) (by simpa using h)
        rw [List.append_nil] at h0
        rw [List.nil_append] at h0
        exact h0
      have haddn : Node.addNodes (n :: rest) s
          = realmWrite s (addNodesLoop (s.nodes.map (·.url)) (n :: rest)) := rfl
      rw [haddn]
      unfold realmWrite
      rw [hloop]
      exact ⟨rfl, rfl, rfl, rfl⟩

/-- C4 witness, the two-call scenario of the claim: after adding the
custom node a and the non-custom node b, re-adding a as non-custom
replaces a in place, so the final list holds exactly the two nodes with a
no longer custom and b unchanged. -/
theorem addNodes_upsert_spec_witness :
    ((freshNodes [⟨"a", false, true⟩] (scenarioStore.nodes.map (·.url))).map (·.url)).Nodup
    ∧ ((Node.addNodes [⟨"a", false, true⟩] scenarioStore).error = none
      ∧ (Node.addNodes [⟨"a", false, true⟩] scenarioStore).state.nodes
          = upsertAllInto [⟨"a", false, true⟩] scenarioStore.nodes
            ++ freshNodes [⟨"a", false, true⟩] (scenarioStore.nodes.map (·.url))
      ∧ (Node.addNodes [⟨"a", false, true⟩] scenarioStore).state.accounts
          = scenarioStore.accounts
      ∧ (Node.addNodes [⟨"a", false, true⟩] scenarioStore).state.wallets
          = scenarioStore.wallets)
    ∧ (Node.addNodes [⟨"a", false, true⟩] scenarioStore).state.nodes
        = [⟨"a", false, true⟩, ⟨"b", false, true⟩] :=
  ⟨by decide, addNodes_upsert_spec scenarioStore [⟨"a", false, true⟩] (by decide), by decide⟩

end Trinity
